import Mathlib

/-!
Shallow embedding of the steam_randomiser repository (src/main.rs).

The program discovers installed Steam games by scanning library directories
for files whose names start with "appmanifest", parsing each manifest text
into a (name, id) pair, filtering the result through a name blacklist, and
finally choosing one entry at random and launching it via a steam URI.

Filesystem effects are modelled as explicit inputs: a directory listing is an
`Option (List FileEntry)` (`none` when `read_dir` fails) and a file read is an
`Option String` stored in the entry (`none` when `read_to_string` fails).
A Rust panic (a failed `unwrap` or an out-of-bounds index/slice) is modelled
by an `Option`-valued result being `none`.

The Rust `str` primitives used by the program (`split`, `split_whitespace`,
`lines`, `contains`, `starts_with`, `ends_with`, `replace`, `parse::<f32>`,
slicing) are modelled by structurally recursive functions on the character
list of a `String`, so that every definition evaluates inside the kernel.
Rust byte positions are modelled by character positions; the two coincide on
the ASCII inputs this development exercises.
-/

/-- The tab character. -/
def tabChar : Char := Char.ofNat 9

/-- The newline character. -/
def newlineChar : Char := Char.ofNat 10

/-- The carriage-return character. -/
def crChar : Char := Char.ofNat 13

/-- The space character. -/
def spaceChar : Char := Char.ofNat 32

/-- The double-quote character. -/
def quoteChar : Char := Char.ofNat 34

/-- The full-stop character. -/
def dotChar : Char := Char.ofNat 46

/-- Whether `pat` is a prefix of `l`, by character comparison. -/
def charsPrefixOf : List Char → List Char → Bool
  | [], _ => true
  | _ :: _, [] => false
  | a :: as, b :: bs => a == b && charsPrefixOf as bs

/-- Whether `pat` occurs as a contiguous run inside `l`. -/
def charsContain (pat : List Char) : List Char → Bool
  | [] => charsPrefixOf pat []
  | c :: cs => charsPrefixOf pat (c :: cs) || charsContain pat cs

/-- Models Rust `str::contains(pat)`. -/
def strContains (s pat : String) : Bool :=
  charsContain pat.data s.data

/-- Models Rust `str::starts_with(pat)`. -/
def strStartsWith (s pat : String) : Bool :=
  charsPrefixOf pat.data s.data

/-- Models Rust `str::ends_with(pat)`. -/
def strEndsWith (s pat : String) : Bool :=
  charsPrefixOf pat.data.reverse s.data.reverse

/-- Split a character list at every character satisfying `p`, keeping empty
pieces, with `acc` the (reversed) piece under construction.  This is the
semantics of Rust `str::split` with a char-predicate pattern. -/
def charSplit (p : Char → Bool) : List Char → List Char → List (List Char)
  | [], acc => [acc.reverse]
  | c :: cs, acc =>
    if p c then acc.reverse :: charSplit p cs []
    else charSplit p cs (c :: acc)

/-- Models Rust `str::split(sep)` for a single-character separator. -/
def splitOnChar (sep : Char) (s : String) : List String :=
  (charSplit (fun c => c == sep) s.data []).map String.mk

/-- Models Rust `str::split_whitespace()`: split at whitespace characters and
drop the empty fragments. -/
def split_whitespace (s : String) : List String :=
  ((charSplit (fun c => c.isWhitespace) s.data []).filter
    (fun f => !f.isEmpty)).map String.mk

/-- Strip one carriage return from the end of a line, helper for
`rustLines`. -/
def stripCR (l : List Char) : List Char :=
  match l.getLast? with
  | some c => if c == crChar then l.dropLast else l
  | none => l

/-- Models Rust `str::lines()`: split on newline characters, strip a carriage
return preceding each newline, and do not produce a final empty line when the
text ends with a newline.  A carriage return not followed by a newline is
kept. -/
def rustLines (s : String) : List String :=
  match s.data with
  | [] => []
  | c :: cs =>
    match (charSplit (fun ch => ch == newlineChar) (c :: cs) []).reverse with
    | [] => []
    | last :: revInit =>
      let init := (revInit.reverse.map stripCR).map String.mk
      if last.isEmpty then init else init ++ [String.mk last]

/-- True when every character of `s` is a decimal digit. -/
def allDigits (s : String) : Bool :=
  s.data.all (fun c => c.isDigit)

/-- Numeric value of a digit string. -/
def digitsVal (s : String) : Nat :=
  s.data.foldl (fun a c => 10 * a + (c.toNat - 48)) 0

/-- Models Rust `str::parse::<f32>()` on plain decimal literals: an optional
sign, then digits with an optional decimal point (at least one digit overall).
Exponents, infinities and NaN are outside the inputs this development
exercises; the value is represented exactly as a rational. -/
def rustParseF32 (s : String) : Option ℚ :=
  let neg : Bool := strStartsWith s "-"
  let body := if neg || strStartsWith s "+" then String.mk (s.data.drop 1) else s
  let sgn : Int := if neg then -1 else 1
  match splitOnChar dotChar body with
  | [ip] =>
    if ip != "" && allDigits ip then some (mkRat (sgn * digitsVal ip) 1) else none
  | [ip, fp] =>
    if (ip != "" || fp != "") && allDigits ip && allDigits fp then
      some (mkRat (sgn * (digitsVal ip * 10 ^ fp.data.length + digitsVal fp))
                  (10 ^ fp.data.length))
    else none
  | _ => none

/-- Models `fn is_proton` (src/main.rs:28): a name is a Proton runtime when it
starts with "Proton", splitting on single space characters (empty fragments
kept, as Rust `split` does) yields more than one fragment, and fragment 1
parses as a non-zero float (`parse` then `unwrap_or(0.0) != 0.0`). -/
def is_proton (app_name : String) : Bool :=
  if strStartsWith app_name "Proton" then
    let number := splitOnChar spaceChar app_name
    if number.length > 1 then
      (rustParseF32 (number.getD 1 "")).getD 0 != 0
    else false
  else false

/-- Models `fn is_blacklisted` (src/main.rs:42). -/
def is_blacklisted (app_name : String) : Bool :=
  let steam_libs := ["Steamworks Common Redistributables", "SteamVR", "Proton Experimental"]
  steam_libs.any (fun b => b == app_name)
    || strEndsWith app_name "Soundtrack"
    || is_proton app_name
    || strStartsWith app_name "Steam Linux Runtime"

/-- Models `fn generate_steam_rungame` (src/main.rs:23). -/
def generate_steam_rungame (id : String) : String :=
  "steam://rungameid/" ++ id

/-- Tab-fragments of a manifest line: split on tab and drop empty fragments,
as in src/main.rs:142-145. -/
def tabFrags (l : String) : List String :=
  ((charSplit (fun c => c == tabChar) l.data []).filter
    (fun f => !f.isEmpty)).map String.mk

/-- One iteration of the manifest field loop (src/main.rs:141-156) on the
mutable state `(game, id)`.  `none` models the panic of the index `line[0]`
when the line has no non-empty fragment, or of `line[1]` when the first
fragment contains "name" or "appid" but no second fragment exists.  The
`replace` of double quotes by nothing is character removal. -/
def lineStep (l : String) (game id : String) : Option (String × String) :=
  match tabFrags l with
  | [] => none
  | f0 :: tail =>
    if strContains f0 "name" || strContains f0 "appid" then
      match tail with
      | [] => none
      | f1 :: _ =>
        let v := String.mk (f1.data.filter (fun c => c != quoteChar))
        some ((if strContains f0 "name" then v else game),
              (if strContains f0 "appid" then v else id))
    else some (game, id)

/-- The manifest field loop over the scanned lines, threading the mutable
`game` and `id` strings (both start empty at src/main.rs:133-134). -/
def parseManifestLines : List String → String → String → Option (String × String)
  | [], game, id => some (game, id)
  | l :: rest, game, id =>
    match lineStep l game id with
    | none => none
    | some gi => parseManifestLines rest gi.1 gi.2

/-- The scanned region of a manifest text: all lines after the two-line header
skip, excluding the final remaining line (src/main.rs:131 and 141). -/
def scannedRegion (text : String) : List String :=
  let lines := (rustLines text).drop 2
  lines.take (lines.length - 1)

/-- A directory entry as the scanner sees it: a file name and the result of
reading the file (`none` models a `read_to_string` failure). -/
structure FileEntry where
  name : String
  contents : Option String

/-- The per-file loop of `get_games_from_manifest_in_path`
(src/main.rs:127-160) over the already-filtered manifest files, threading the
accumulated `games` vector.  `none` models a panic (unreadable file at
src/main.rs:130, or a malformed line inside the field loop); the early
`return games` for a manifest that is empty after the two-line skip
(src/main.rs:136-139) becomes `some games`. -/
def processFiles : List FileEntry → List (String × String) → Option (List (String × String))
  | [], games => some games
  | f :: rest, games =>
    match f.contents with
    | none => none
    | some text =>
      let lines := (rustLines text).drop 2
      if lines.isEmpty then some games
      else
        match parseManifestLines (lines.take (lines.length - 1)) "" "" with
        | none => none
        | some gi =>
          processFiles rest
            (if is_blacklisted gi.1 then games else games ++ [(gi.1, gi.2)])

/-- Models `fn get_games_from_manifest_in_path` (src/main.rs:103): `none` on
the directory listing models a failed `read_dir`, which yields the empty
vector; otherwise files whose names start with "appmanifest" are processed in
order. -/
def get_games_from_manifest_in_path (dir : Option (List FileEntry)) :
    Option (List (String × String)) :=
  match dir with
  | none => some []
  | some entries =>
    processFiles (entries.filter (fun f => strStartsWith f.name "appmanifest")) []

/-- The line loop of `get_other_install_dirs` (src/main.rs:93-98).  For a line
containing "path", the index `splitted[1]` panics when there are fewer than
two whitespace tokens, and the slice `[1..len-1]` panics when the second token
is shorter than two characters; both panics are modelled by `none`. -/
def installDirsLines : List String → Option (List String)
  | [] => some []
  | l :: rest =>
    if strContains l "path" then
      match split_whitespace l with
      | _ :: t1 :: _ =>
        if t1.data.length < 2 then none
        else (installDirsLines rest).map
          (fun libs => String.mk ((t1.data.drop 1).dropLast) :: libs)
      | _ => none
    else installDirsLines rest

/-- Models `fn get_other_install_dirs` (src/main.rs:81) on the text of the
`libraryfolders.vdf` registry file (the file read itself is `unwrap`ped before
this loop and is not part of this claim set). -/
def get_other_install_dirs (text : String) : Option (List String) :=
  installDirsLines (rustLines text)

/-- Models `SliceRandom::choose`: `none` on an empty list, otherwise the
element at a position determined by the random draw `k`. -/
def chooseModel (l : List (String × String)) (k : Nat) : Option (String × String) :=
  l.get? (k % l.length)

/-- The tail of `fn main` (src/main.rs:363-371): choose a random catalog entry
(the `unwrap` panics on an empty catalog, modelled by the outer `none`) and,
unless this is a dry run, launch the chosen game through its steam URI (the
inner `Option String` is the URI handed to the launch action, `none` for a dry
run). -/
def select_and_launch (games : List (String × String)) (k : Nat) (dry_run : Bool) :
    Option (Option String) :=
  match chooseModel games k with
  | none => none
  | some gi => some (if dry_run then none else some (generate_steam_rungame gi.2))

/-- C4: a library root whose directory listing fails contributes an empty set
of catalog entries instead of failing the run (src/main.rs:104-114). -/
theorem unlistable_dir_yields_empty_catalog :
    get_games_from_manifest_in_path none = some [] := rfl

/-- C8: the blacklist does not exclude the empty name, and a manifest whose
scanned lines carry an "appid" field but no "name" field still produces a
catalog entry, with the empty string as its name. -/
theorem empty_name_still_emitted :
    is_blacklisted "" = false ∧
    get_games_from_manifest_in_path
      (some [FileEntry.mk "appmanifest_261.acf"
        (some "AppState\nx\n\"appid\"\t\"440\"\nend")])
      = some [("", "440")] := by
  exact ⟨by decide, by decide⟩

/-- C9: an empty aggregated catalog makes the run fail at the random-selection
`unwrap` (src/main.rs:363), so the launch action is never reached, whatever
the random draw and the dry-run flag are. -/
theorem empty_catalog_fails_before_launch (k : Nat) (dry_run : Bool) :
    select_and_launch [] k dry_run = none := rfl

/-- C2 counterexample: a manifest text whose scanned region contains both the
line with "appid" tab "123" and the line with "name" tab "Foo", yet parsing
yields the name "Bar", because a later "name" line overwrites the earlier one
(last occurrence wins, src/main.rs:141-156). -/
theorem manifest_two_fields_cex :
    ("\"appid\"\t\"123\"" ∈
        scannedRegion "h\nh\n\"appid\"\t\"123\"\n\"name\"\t\"Foo\"\n\"name\"\t\"Bar\"\nend" ∧
     "\"name\"\t\"Foo\"" ∈
        scannedRegion "h\nh\n\"appid\"\t\"123\"\n\"name\"\t\"Foo\"\n\"name\"\t\"Bar\"\nend") ∧
    parseManifestLines
      (scannedRegion "h\nh\n\"appid\"\t\"123\"\n\"name\"\t\"Foo\"\n\"name\"\t\"Bar\"\nend") "" ""
      = some ("Bar", "123") ∧
    ("Bar", "123") ≠ (("Foo", "123") : String × String) := by
  exact ⟨⟨by decide, by decide⟩, by decide, by decide⟩

/-- C3 counterexample: an empty line inside the scanned region has no
non-empty tab fragment, so the field loop panics at the index `line[0]`
(src/main.rs:146) instead of skipping the line: the whole directory scan
aborts abnormally (`none`). -/
theorem malformed_line_panics_cex :
    tabFrags "" = [] ∧
    get_games_from_manifest_in_path
      (some [FileEntry.mk "appmanifest_3.acf" (some "a\nb\n\nx")]) = none := by
  exact ⟨by decide, by decide⟩

/-- C7 counterexample: the name with two spaces between "Proton" and "7.0"
has "7.0" as its second whitespace-separated token, which parses as the
non-zero number 7, yet `is_proton` rejects it (the code splits on single
space characters and fragment 1 is the empty string), and no other blacklist
rule catches it either. -/
theorem proton_rule_cex :
    strStartsWith "Proton  7.0" "Proton" = true ∧
    split_whitespace "Proton  7.0" = ["Proton", "7.0"] ∧
    (rustParseF32 "7.0").getD 0 = 7 ∧ ((7 : ℚ) ≠ 0) ∧
    is_proton "Proton  7.0" = false ∧ is_blacklisted "Proton  7.0" = false := by
  exact ⟨by decide, by decide, by decide, by norm_num, by decide, by decide⟩

/-- C1: when a manifest file read succeeds but its text has no line left after
the two-line header skip, the scanner emits no record for it and returns the
entries accumulated so far, abandoning every remaining manifest file of the
directory (the early `return games` at src/main.rs:136-139); in particular a
directory starting with such a file contributes nothing. -/
theorem empty_manifest_aborts_directory_scan
    (f : FileEntry) (t : String)
    (hf : strStartsWith f.name "appmanifest" = true)
    (hc : f.contents = some t)
    (he : (rustLines t).drop 2 = []) :
    (∀ rest games, processFiles (f :: rest) games = some games) ∧
    (∀ post, get_games_from_manifest_in_path (some (f :: post)) = some []) := by
  have h1 : ∀ rest games, processFiles (f :: rest) games = some games := by
    intro rest games
    unfold processFiles
    rw [hc]
    simp [he]
  refine ⟨h1, ?_⟩
  intro post
  have hfil : get_games_from_manifest_in_path (some (f :: post)) =
      processFiles (f :: post.filter (fun e => strStartsWith e.name "appmanifest")) [] := by
    simp [get_games_from_manifest_in_path, List.filter_cons, hf]
  rw [hfil]
  exact h1 _ []

/-- C1 witness: a concrete directory whose second manifest file has only one
line; the first file was already collected, the third is never scanned. -/
theorem empty_manifest_aborts_directory_scan_witness :
    processFiles
      [FileEntry.mk "appmanifest_9.acf" (some "one"),
       FileEntry.mk "appmanifest_10.acf" (some "a\nb\n\"name\"\t\"X\"\n\"appid\"\t\"7\"\nend")]
      [("G", "1")] = some [("G", "1")] ∧
    get_games_from_manifest_in_path
      (some [FileEntry.mk "appmanifest_9.acf" (some "one"),
             FileEntry.mk "appmanifest_10.acf" (some "a\nb\n\"name\"\t\"X\"\n\"appid\"\t\"7\"\nend")])
      = some [] := by
  have h := empty_manifest_aborts_directory_scan
    (FileEntry.mk "appmanifest_9.acf" (some "one")) "one"
    (by decide) rfl (by decide)
  exact ⟨h.1 _ _, h.2 _⟩

/-- C5: a directory entry selected by the "appmanifest" filename filter whose
read fails makes the whole run fail (the `unwrap` at src/main.rs:130), in
contrast with the tolerant empty result of a directory-listing failure. -/
theorem unreadable_manifest_fails_run
    (f : FileEntry)
    (hf : strStartsWith f.name "appmanifest" = true)
    (hc : f.contents = none) :
    (∀ rest games, processFiles (f :: rest) games = none) ∧
    (∀ post, get_games_from_manifest_in_path (some (f :: post)) = none) := by
  have h1 : ∀ rest games, processFiles (f :: rest) games = none := by
    intro rest games
    unfold processFiles
    rw [hc]
  refine ⟨h1, ?_⟩
  intro post
  have hfil : get_games_from_manifest_in_path (some (f :: post)) =
      processFiles (f :: post.filter (fun e => strStartsWith e.name "appmanifest")) [] := by
    simp [get_games_from_manifest_in_path, List.filter_cons, hf]
  rw [hfil]
  exact h1 _ []

/-- C5 witness: a concrete directory whose first manifest file is unreadable;
the scanner result is the panic `none`, not an empty or partial catalog. -/
theorem unreadable_manifest_fails_run_witness :
    processFiles
      [FileEntry.mk "appmanifest_11.acf" none,
       FileEntry.mk "appmanifest_12.acf" (some "a\nb\n\"appid\"\t\"3\"\nend")] [] = none ∧
    get_games_from_manifest_in_path
      (some [FileEntry.mk "appmanifest_11.acf" none,
             FileEntry.mk "appmanifest_12.acf" (some "a\nb\n\"appid\"\t\"3\"\nend")]) = none := by
  have h := unreadable_manifest_fails_run
    (FileEntry.mk "appmanifest_11.acf" none) (by decide) rfl
  exact ⟨h.1 _ _, h.2 _⟩

/-- Helper for the order-independence of the two manifest field lines: if
every line of `L` is the "name"/"Foo" line, the "appid"/"123" line, or leaves
the parser state unchanged, and each designated line either occurs in `L` or
has already taken effect in the state, the loop ends in the state
("Foo", "123"). -/
theorem parseManifestLines_two_fields (L : List String)
    (hok : ∀ l ∈ L, l = "\"name\"\t\"Foo\"" ∨ l = "\"appid\"\t\"123\"" ∨
      ∀ g i, lineStep l g i = some (g, i)) :
    ∀ g i, ("\"name\"\t\"Foo\"" ∈ L ∨ g = "Foo") → ("\"appid\"\t\"123\"" ∈ L ∨ i = "123") →
    parseManifestLines L g i = some ("Foo", "123") := by
  induction L with
  | nil =>
    intro g i hg hi
    simp only [List.not_mem_nil, false_or] at hg hi
    rw [hg, hi]
    rfl
  | cons l t ih =>
    intro g i hg hi
    have hok' : ∀ l ∈ t, l = "\"name\"\t\"Foo\"" ∨ l = "\"appid\"\t\"123\"" ∨
        ∀ g i, lineStep l g i = some (g, i) :=
      fun x hx => hok x (List.mem_cons_of_mem _ hx)
    rcases hok l (List.mem_cons_self _ _) with hl | hl | hl
    · subst hl
      have e : parseManifestLines ("\"name\"\t\"Foo\"" :: t) g i =
          parseManifestLines t "Foo" i := rfl
      rw [e]
      refine ih hok' "Foo" i (Or.inr rfl) ?_
      rcases hi with hi | hi
      · rcases List.mem_cons.mp hi with h | h
        · exact absurd h (by decide)
        · exact Or.inl h
      · exact Or.inr hi
    · subst hl
      have e : parseManifestLines ("\"appid\"\t\"123\"" :: t) g i =
          parseManifestLines t g "123" := rfl
      rw [e]
      refine ih hok' g "123" ?_ (Or.inr rfl)
      rcases hg with hg | hg
      · rcases List.mem_cons.mp hg with h | h
        · exact absurd h (by decide)
        · exact Or.inl h
      · exact Or.inr hg
    · have e : parseManifestLines (l :: t) g i = parseManifestLines t g i := by
        simp only [parseManifestLines, hl g i]
      rw [e]
      refine ih hok' g i ?_ ?_
      · rcases hg with hg | hg
        · rcases List.mem_cons.mp hg with h | h
          · exfalso
            have h1 := hl "" ""
            rw [← h] at h1
            exact absurd h1 (by decide)
          · exact Or.inl h
        · exact Or.inr hg
      · rcases hi with hi | hi
        · rcases List.mem_cons.mp hi with h | h
          · exfalso
            have h1 := hl "" ""
            rw [← h] at h1
            exact absurd h1 (by decide)
          · exact Or.inl h
        · exact Or.inr hi

/-- C2 amended: for every manifest text whose scanned region (after the
two-line skip, excluding the final line) contains the line with "appid" tab
"123" and the line with "name" tab "Foo", and whose remaining scanned lines
leave the parser fields unchanged (each has a first tab-fragment containing
neither "name" nor "appid"), parsing yields the record with name "Foo" and id
"123", regardless of the order of the two field lines. -/
theorem manifest_fields_order_irrelevant (text : String)
    (hok : ∀ l ∈ scannedRegion text, l = "\"name\"\t\"Foo\"" ∨ l = "\"appid\"\t\"123\"" ∨
      ∀ g i, lineStep l g i = some (g, i))
    (hname : "\"name\"\t\"Foo\"" ∈ scannedRegion text)
    (happid : "\"appid\"\t\"123\"" ∈ scannedRegion text) :
    parseManifestLines (scannedRegion text) "" "" = some ("Foo", "123") :=
  parseManifestLines_two_fields (scannedRegion text) hok "" ""
    (Or.inl hname) (Or.inl happid)

/-- C2 witness: two concrete manifest texts carrying the two field lines in
both orders, with an inert line between them, both parse to ("Foo", "123"). -/
theorem manifest_fields_order_irrelevant_witness :
    parseManifestLines
      (scannedRegion "h\nh\n\"appid\"\t\"123\"\n\"inert\"\t\"z\"\n\"name\"\t\"Foo\"\nend")
      "" "" = some ("Foo", "123") ∧
    parseManifestLines
      (scannedRegion "h\nh\n\"name\"\t\"Foo\"\n\"inert\"\t\"z\"\n\"appid\"\t\"123\"\nend")
      "" "" = some ("Foo", "123") := by
  constructor
  · apply manifest_fields_order_irrelevant
    · intro l hl
      have hr : scannedRegion "h\nh\n\"appid\"\t\"123\"\n\"inert\"\t\"z\"\n\"name\"\t\"Foo\"\nend"
          = ["\"appid\"\t\"123\"", "\"inert\"\t\"z\"", "\"name\"\t\"Foo\""] := by decide
      rw [hr] at hl
      rcases List.mem_cons.mp hl with rfl | hl
      · exact Or.inr (Or.inl rfl)
      rcases List.mem_cons.mp hl with rfl | hl
      · exact Or.inr (Or.inr (fun g i => rfl))
      rcases List.mem_cons.mp hl with rfl | hl
      · exact Or.inl rfl
      · exact absurd hl (List.not_mem_nil _)
    · decide
    · decide
  · apply manifest_fields_order_irrelevant
    · intro l hl
      have hr : scannedRegion "h\nh\n\"name\"\t\"Foo\"\n\"inert\"\t\"z\"\n\"appid\"\t\"123\"\nend"
          = ["\"name\"\t\"Foo\"", "\"inert\"\t\"z\"", "\"appid\"\t\"123\""] := by decide
      rw [hr] at hl
      rcases List.mem_cons.mp hl with rfl | hl
      · exact Or.inl rfl
      rcases List.mem_cons.mp hl with rfl | hl
      · exact Or.inr (Or.inr (fun g i => rfl))
      rcases List.mem_cons.mp hl with rfl | hl
      · exact Or.inr (Or.inl rfl)
      · exact absurd hl (List.not_mem_nil _)
    · decide
    · decide

/-- C3 amended: a scanned manifest line is skipped without error exactly when
it has at least one non-empty tab fragment and its first fragment contains
neither "name" nor "appid"; a line with no non-empty fragment, and a line
whose single fragment matches one of the two keys, make the field loop panic
(the indexes at src/main.rs:146 and 147/153), aborting the run. -/
theorem malformed_line_skipped_or_panics (l : String) :
    (∀ f0 tail, tabFrags l = f0 :: tail →
      strContains f0 "name" = false → strContains f0 "appid" = false →
      ∀ g i rest, parseManifestLines (l :: rest) g i = parseManifestLines rest g i) ∧
    (tabFrags l = [] → ∀ g i, lineStep l g i = none) ∧
    (∀ f0, tabFrags l = [f0] → (strContains f0 "name" || strContains f0 "appid") = true →
      ∀ g i, lineStep l g i = none) := by
  refine ⟨?_, ?_, ?_⟩
  · intro f0 tail hsplit hn ha g i rest
    have hstep : lineStep l g i = some (g, i) := by
      unfold lineStep
      rw [hsplit]
      simp [hn, ha]
    simp only [parseManifestLines, hstep]
  · intro h g i
    unfold lineStep
    rw [h]
  · intro f0 h hcont g i
    unfold lineStep
    rw [h]
    simp [hcont]

/-- C3 witness: the line "junk" is skipped (the state and the rest of the loop
are unaffected), while the empty line and a lone "name" key panic. -/
theorem malformed_line_skipped_or_panics_witness :
    parseManifestLines ["junk", "\"appid\"\t\"9\""] "a" "b"
      = parseManifestLines ["\"appid\"\t\"9\""] "a" "b" ∧
    lineStep "" "a" "b" = none ∧
    lineStep "\"name\"" "a" "b" = none := by
  refine ⟨?_, ?_, ?_⟩
  · exact (malformed_line_skipped_or_panics "junk").1 "junk" [] (by decide) (by decide)
      (by decide) "a" "b" ["\"appid\"\t\"9\""]
  · exact (malformed_line_skipped_or_panics "").2.1 (by decide) "a" "b"
  · exact (malformed_line_skipped_or_panics "\"name\"").2.2 "\"name\"" (by decide)
      (by decide) "a" "b"

/-- Helper for the resolver success path: when every line containing "path"
has at least two whitespace tokens and a second token of length at least two,
the loop returns exactly the stripped second tokens of those lines, in
order. -/
theorem installDirsLines_eq (L : List String)
    (h : ∀ l ∈ L, strContains l "path" = true →
      2 ≤ (split_whitespace l).length ∧ 2 ≤ ((split_whitespace l).getD 1 "").data.length) :
    installDirsLines L = some ((L.filter (fun l => strContains l "path")).map
      (fun l => String.mk ((((split_whitespace l).getD 1 "").data.drop 1).dropLast))) := by
  induction L with
  | nil => rfl
  | cons l t ih =>
    have h' : ∀ x ∈ t, strContains x "path" = true →
        2 ≤ (split_whitespace x).length ∧ 2 ≤ ((split_whitespace x).getD 1 "").data.length :=
      fun x hx => h x (List.mem_cons_of_mem _ hx)
    by_cases hp : strContains l "path" = true
    · obtain ⟨h1, h2⟩ := h l (List.mem_cons_self _ _) hp
      rcases hsw : split_whitespace l with _ | ⟨t0, tl⟩
      · rw [hsw] at h1; simp at h1
      rcases tl with _ | ⟨t1, tl2⟩
      · rw [hsw] at h1; simp at h1
      have hget : (split_whitespace l).getD 1 "" = t1 := by rw [hsw]; rfl
      have hlen : ¬ t1.data.length < 2 := by
        rw [hget] at h2; omega
      unfold installDirsLines
      rw [hp]
      simp only [if_true]
      rw [hsw]
      show (if t1.data.length < 2 then none
        else Option.map (fun libs => String.mk ((t1.data.drop 1).dropLast) :: libs)
          (installDirsLines t))
        = some (((l :: t).filter (fun x => strContains x "path")).map
          (fun x => String.mk ((((split_whitespace x).getD 1 "").data.drop 1).dropLast)))
      rw [if_neg hlen, ih h']
      simp only [List.filter_cons, hp, if_true, List.map_cons, Option.map_some', hget]
    · have hp' : strContains l "path" = false := by
        cases hb : strContains l "path"
        · rfl
        · exact absurd hb hp
      unfold installDirsLines
      rw [hp']
      simp only [Bool.false_eq_true, if_false, ih h', List.filter_cons, hp', if_false]

/-- C6: on a registry text in which every line containing "path" has a second
whitespace token of length at least two, the resolver returns, for each such
line in order, that second token with exactly one leading and one trailing
character stripped; lines not containing "path" contribute nothing. -/
theorem resolver_extracts_path_tokens (text : String)
    (h : ∀ l ∈ rustLines text, strContains l "path" = true →
      2 ≤ (split_whitespace l).length ∧ 2 ≤ ((split_whitespace l).getD 1 "").data.length) :
    get_other_install_dirs text =
      some (((rustLines text).filter (fun l => strContains l "path")).map
        (fun l => String.mk ((((split_whitespace l).getD 1 "").data.drop 1).dropLast))) :=
  installDirsLines_eq (rustLines text) h

/-- C6 witness: the spec example, a registry file holding one quoted path
declaration, yields exactly that path with its quotes stripped. -/
theorem resolver_extracts_path_tokens_witness :
    get_other_install_dirs "\"path\"  \"D:\\\\Games\\\\SteamLibrary\""
      = some ["D:\\\\Games\\\\SteamLibrary"] :=
  (resolver_extracts_path_tokens "\"path\"  \"D:\\\\Games\\\\SteamLibrary\""
    (by decide)).trans (by decide)

/-- Helper for the resolver failure path: one bad "path" line anywhere in the
list makes the whole loop terminate abnormally. -/
theorem installDirsLines_none (L : List String)
    (h : ∃ l ∈ L, strContains l "path" = true ∧
      ((split_whitespace l).length < 2 ∨ ((split_whitespace l).getD 1 "").data.length < 2)) :
    installDirsLines L = none := by
  induction L with
  | nil => simp at h
  | cons l t ih =>
    obtain ⟨w, hw, hpath, hbad⟩ := h
    rcases List.mem_cons.mp hw with rfl | hw
    · unfold installDirsLines
      rw [hpath]
      simp only [if_true]
      rcases hsw : split_whitespace w with _ | ⟨t0, tl⟩
      · rfl
      rcases tl with _ | ⟨t1, tl2⟩
      · rfl
      rw [hsw] at hbad
      have hlen : t1.data.length < 2 := by
        rcases hbad with hbad | hbad
        · exfalso
          simp at hbad
          omega
        · simpa [List.getD] using hbad
      show (if t1.data.length < 2 then none
        else Option.map (fun libs => String.mk ((t1.data.drop 1).dropLast) :: libs)
          (installDirsLines t)) = none
      rw [if_pos hlen]
    · have hnone := ih ⟨w, hw, hpath, hbad⟩
      unfold installDirsLines
      by_cases hp : strContains l "path" = true
      · rw [hp]
        simp only [if_true]
        rcases hsw : split_whitespace l with _ | ⟨t0, tl⟩
        · rfl
        rcases tl with _ | ⟨t1, tl2⟩
        · rfl
        show (if t1.data.length < 2 then none
          else Option.map (fun libs => String.mk ((t1.data.drop 1).dropLast) :: libs)
            (installDirsLines t)) = none
        by_cases hlen : t1.data.length < 2
        · rw [if_pos hlen]
        · rw [if_neg hlen, hnone]
          rfl
      · have hp' : strContains l "path" = false := by
          cases hb : strContains l "path"
          · rfl
          · exact absurd hb hp
        rw [hp']
        simpa using hnone

/-- C10: a registry text with a line that contains "path" but splits into
fewer than two whitespace tokens, or whose second token is shorter than two
characters, makes the resolver terminate abnormally (the index at
src/main.rs:96 or the slice at src/main.rs:96) instead of skipping the line
or returning a result. -/
theorem resolver_panics_on_short_path_line (text : String)
    (h : ∃ l ∈ rustLines text, strContains l "path" = true ∧
      ((split_whitespace l).length < 2 ∨ ((split_whitespace l).getD 1 "").data.length < 2)) :
    get_other_install_dirs text = none :=
  installDirsLines_none (rustLines text) h

/-- C10 witness: a registry file consisting of the single token "path" (no
second token) crashes the resolver; so does a quoted path line whose second
token is a single character. -/
theorem resolver_panics_on_short_path_line_witness :
    get_other_install_dirs "path" = none ∧
    get_other_install_dirs "\"path\" x\nmore" = none := by
  constructor
  · exact resolver_panics_on_short_path_line "path" (by decide)
  · exact resolver_panics_on_short_path_line "\"path\" x\nmore" (by decide)

/-- C7 amended: the Proton rule excludes a name exactly when it starts with
"Proton", splitting it on single space characters (empty fragments kept)
yields more than one fragment, and fragment 1 parses as a non-zero
floating-point number.  "Proton 7.0" is excluded by it; "Proton" (no second
fragment) is not; "Proton Experimental" is not excluded by the Proton rule
(its second fragment fails the numeric parse) but is excluded by the
exact-match list inside `is_blacklisted`. -/
theorem proton_rule_characterization :
    is_proton "Proton 7.0" = true ∧ is_blacklisted "Proton 7.0" = true ∧
    is_proton "Proton" = false ∧
    is_proton "Proton Experimental" = false ∧
    is_blacklisted "Proton Experimental" = true ∧
    ∀ name : String, is_proton name = true ↔
      (strStartsWith name "Proton" = true ∧
       1 < (splitOnChar spaceChar name).length ∧
       (rustParseF32 ((splitOnChar spaceChar name).getD 1 "")).getD 0 ≠ 0) := by
  refine ⟨by decide, by decide, by decide, by decide, by decide, ?_⟩
  intro name
  unfold is_proton
  by_cases h1 : strStartsWith name "Proton" = true
  · rw [h1]
    simp only [if_true]
    by_cases h2 : 1 < (splitOnChar spaceChar name).length
    · simp [h2, bne_iff_ne]
    · simp only [if_neg h2]
      simp [h2]
  · have h1' : strStartsWith name "Proton" = false := by
      cases hb : strStartsWith name "Proton"
      · rfl
      · exact absurd hb h1
    rw [h1']
    simp [h1]
